import Mathlib

/-!
Verification of `attackexcel.py`, a tool converting between spreadsheets of
MITRE ATT&CK technique data and ATT&CK Navigator layer JSON files.

The Python source is shallowly embedded: platform sets become `Finset String`,
Python dicts become association lists with Python insertion/update semantics,
the seed loop becomes a list filter, and the layer builder becomes pure
functions over a cell-value type.
-/

namespace AttackExcel

/-! Valid platform sets (attackexcel.py lines 54-59) -/

def valid_enterprise_platforms : Finset String :=
  {"SaaS", "macOS", "PRE", "IaaS", "Linux", "Office 365", "Containers",
   "Google Workspace", "Windows", "Network", "Azure AD"}

def valid_mobile_platforms : Finset String := {"Android", "iOS"}

def valid_ics_platforms : Finset String :=
  {"Field Controller/RTU/PLC/IED", "Safety Instrumented System/Protection Relay", "Control Server",
   "Input/Output Server", "Windows", "Human-Machine Interface", "Engineering Workstation",
   "Data Historian"}

/-- The three ATT&CK domains accepted by the CLI (`--domain` choices). -/
def attack_domains : List String := ["enterprise-attack", "mobile-attack", "ics-attack"]

/-- Spec-side helper: the valid-platform set belonging to a domain. -/
def valid_platform_set (domain : String) : Finset String :=
  if domain = "enterprise-attack" then valid_enterprise_platforms
  else if domain = "mobile-attack" then valid_mobile_platforms
  else if domain = "ics-attack" then valid_ics_platforms
  else ∅

/-! validate_platform_filters_to_domain (lines 62-89)

The Python function picks `platformfilterin` if given, then overrides with
`platformfilterout` if given; with no filter it returns `True`.  Otherwise it
walks the chosen list and, at the first platform not valid for the domain,
prints a message and returns `False`.  We embed it as returning `none` for
success (`True`) and `some message` for failure (`False` plus the printed
line). -/

def resolve_platform_filter (pin pout : Option (List String)) :
    Option (List String) :=
  match pout with
  | some l => some l
  | none => pin

def validate_platform_filters_to_domain (domain : String)
    (pin pout : Option (List String)) : Option String :=
  match resolve_platform_filter pin pout with
  | none => none
  | some platform_filter =>
    if domain = "enterprise-attack" then
      (platform_filter.find? (fun p => decide (p ∉ valid_enterprise_platforms))).map
        (fun p => p ++ " is not a valid ATT&CK platform for the Enterprise domain")
    else if domain = "mobile-attack" then
      (platform_filter.find? (fun p => decide (p ∉ valid_mobile_platforms))).map
        (fun p => p ++ " is not a valid ATT&CK platform for the Mobile domain")
    else if domain = "ics-attack" then
      (platform_filter.find? (fun p => decide (p ∉ valid_ics_platforms))).map
        (fun p => p ++ " is not a valid ATT&CK platform for the ICS domain")
    else none

/-- Spec-side helper: the failure message naming the bad platform and the
domain (Enterprise, Mobile or ICS). -/
def invalid_message (domain p : String) : String :=
  if domain = "enterprise-attack" then
    p ++ " is not a valid ATT&CK platform for the Enterprise domain"
  else if domain = "mobile-attack" then
    p ++ " is not a valid ATT&CK platform for the Mobile domain"
  else
    p ++ " is not a valid ATT&CK platform for the ICS domain"

/-! create_platform_filter (lines 92-117) -/

def create_platform_filter (domain : String)
    (pin pout : Option (List String)) : Finset String :=
  if domain = "enterprise-attack" then
    let pf := valid_enterprise_platforms
    let pf := match pin with
      | some l => l.toFinset
      | none => pf
    let pf := match pout with
      | some l => valid_enterprise_platforms \ l.toFinset
      | none => pf
    pf
  else if domain = "mobile-attack" then
    let pf := valid_mobile_platforms
    let pf := match pin with
      | some l => l.toFinset
      | none => pf
    let pf := match pout with
      | some l => valid_mobile_platforms \ l.toFinset
      | none => pf
    pf
  else if domain = "ics-attack" then
    let pf := valid_ics_platforms
    let pf := match pin with
      | some l => l.toFinset
      | none => pf
    let pf := match pout with
      | some l => valid_ics_platforms \ l.toFinset
      | none => pf
    pf
  else (∅ : Finset String)

/-! seed (lines 120-199)

A fetched technique record.  Optional keys of the Python dict become `Option`
fields: `revoked` may be absent (the membership test `revoked in technique` guards the access),
as may `data_sources` and `technique_description`. -/

structure Technique where
  technique_id : String
  technique : String
  x_mitre_is_subtechnique : Bool
  platform : List String
  revoked : Option Bool
  data_sources : Option (List String)
  technique_description : Option String
deriving DecidableEq, Repr

/-- The three skip checks of the seed loop (lines 162-175), as the condition
under which a technique row is written. -/
def seed_keep (subtechniques : Bool) (platform_filter : Finset String)
    (t : Technique) : Bool :=
  if t.revoked = some true then false
  else if t.x_mitre_is_subtechnique && !subtechniques then false
  else if platform_filter ∩ t.platform.toFinset = ∅ then false
  else true

/-- The techniques whose rows are written to the `techniques` sheet, in the
order the loop visits them. -/
def seed_kept (subtechniques : Bool) (platform_filter : Finset String)
    (ts : List Technique) : List Technique :=
  ts.filter (seed_keep subtechniques platform_filter)

/-- The techniques the loop skips (each is logged with a `Skipping ...` line
and not written). -/
def seed_skipped (subtechniques : Bool) (platform_filter : Finset String)
    (ts : List Technique) : List Technique :=
  ts.filter (fun t => !(seed_keep subtechniques platform_filter t))

/-- The value of `sheet1_row` after the loop: starts at 2 and is incremented
once per kept technique (line 158 and line 189). -/
def seed_final_sheet1_row (subtechniques : Bool) (platform_filter : Finset String)
    (ts : List Technique) : Nat :=
  ts.foldl
    (fun r t => if seed_keep subtechniques platform_filter t then r + 1 else r) 2

/-- The technique count printed at line 199: `sheet1_row - 1`. -/
def seed_reported_count (subtechniques : Bool) (platform_filter : Finset String)
    (ts : List Technique) : Nat :=
  seed_final_sheet1_row subtechniques platform_filter ts - 1

/-! main (lines 249-306)

After argument parsing, `main` runs `validate_platform_filters_to_domain` and
calls the subcommand function only when it returns `True`; in either case the
script then falls off the end of `main`, so the process exit status is 0. -/

structure MainResult where
  ran_operation : Bool
  exit_code : Nat
deriving DecidableEq, Repr

def main_dispatch (domain : String) (pin pout : Option (List String)) :
    MainResult :=
  if (validate_platform_filters_to_domain domain pin pout).isNone then
    ⟨true, 0⟩
  else
    ⟨false, 0⟩

/-! layer (lines 202-246)

Cell values read through openpyxl (`data_only=True`): an empty cell reads as
Python `None`; other cells carry strings, numbers or booleans. -/

inductive PyValue where
  | none
  | str (s : String)
  | int (n : Int)
  | bool (b : Bool)
deriving DecidableEq, Repr

/-- Python dict assignment `m[k] = v`: updates the value in place when the key
exists, otherwise appends the binding (insertion order preserved). -/
def dictSet {α : Type} (m : List (String × α)) (k : String) (v : α) :
    List (String × α) :=
  if (m.map Prod.fst).contains k then
    m.map (fun kv => if kv.1 = k then (k, v) else kv)
  else
    m ++ [(k, v)]

/-- Python dict lookup `m[k]` (as an `Option`). -/
def dictLookup {α : Type} (m : List (String × α)) (k : String) : Option α :=
  (m.find? (fun kv => kv.1 == k)).map Prod.snd

/-- The header names the layer builder recognizes (line 220). -/
def recognized_headers : List String :=
  ["techniqueID", "color", "enabled", "score", "comment"]

/-- The header-scanning loop of lines 216-222: walks the first-row cells with
a running column counter and records each recognized header name against its
column number in a dict. -/
def build_column_map_from (cells : List PyValue) (column : Nat)
    (column_map : List (String × Nat)) : List (String × Nat) :=
  match cells with
  | [] => column_map
  | c :: rest =>
    let column_map :=
      match c with
      | PyValue.str s =>
        if s ∈ recognized_headers then dictSet column_map s column else column_map
      | _ => column_map
    build_column_map_from rest (column + 1) column_map

def build_column_map (headers : List PyValue) : List (String × Nat) :=
  build_column_map_from headers 0 []

/-- `row[column].value` in read-only mode: rows are padded to the sheet width
with empty cells, so an index beyond the stored cells reads as `None`. -/
def row_get (row : List PyValue) (column : Nat) : PyValue :=
  (row.get? column).getD PyValue.none

/-- The per-row dict of lines 228-231: one key per `column_map` entry, valued
at the cell of that row in the mapped column. -/
def build_technique (column_map : List (String × Nat)) (row : List PyValue) :
    List (String × PyValue) :=
  column_map.map (fun kv => (kv.1, row_get row kv.2))

/-- The `techniques` list of lines 226-231, one entry per data row (rows from
row 2 on), in worksheet row order. -/
def layer_techniques (headers : List PyValue) (rows : List (List PyValue)) :
    List (List (String × PyValue)) :=
  rows.map (build_technique (build_column_map headers))

/-! The layer template and document (lines 21-52 and 233-243) -/

inductive JValue where
  | str (s : String)
  | int (n : Int)
  | bool (b : Bool)
  | null
  | arr (elems : List JValue)
  | obj (fields : List (String × JValue))

def default_layer_template : List (String × JValue) :=
  [("versions", JValue.obj
      [("attack", JValue.str "9"),
       ("navigator", JValue.str "4.3"),
       ("layer", JValue.str "4.2")]),
   ("domain", JValue.str ""),
   ("description", JValue.str ""),
   ("filters", JValue.obj [("platforms", JValue.arr [])]),
   ("sorting", JValue.int 0),
   ("layout", JValue.obj
      [("layout", JValue.str "side"),
       ("showID", JValue.str "false"),
       ("showName", JValue.str "true")]),
   ("hideDisabled", JValue.str "false"),
   ("gradient", JValue.obj
      [("colors", JValue.arr
          [JValue.str "#ff6666", JValue.str "#ffe766", JValue.str "#8ec843"]),
       ("minValue", JValue.int 0),
       ("maxValue", JValue.int 100)]),
   ("legendItems", JValue.arr []),
   ("metadata", JValue.arr []),
   ("showTacticRowBackground", JValue.str "false"),
   ("tacticRowBackground", JValue.str "#dddddd"),
   ("selectTechniquesAcrossTactics", JValue.str "true"),
   ("selectSubtechniquesWithParent", JValue.str "false")]

def pyToJ : PyValue → JValue
  | PyValue.none => JValue.null
  | PyValue.str s => JValue.str s
  | PyValue.int n => JValue.int n
  | PyValue.bool b => JValue.bool b

def techniqueToJ (t : List (String × PyValue)) : JValue :=
  JValue.obj (t.map (fun kv => (kv.1, pyToJ kv.2)))

/-- Lines 234-239: the template dict updated with the five overwritten fields.
`name` is a fresh key (the template has none) and is appended; the nested
`filters` dict has its `platforms` key overwritten in place. -/
def layer_document (name domain description : String)
    (techniques : List (List (String × PyValue))) (platforms : List String) :
    List (String × JValue) :=
  let t := dictSet (dictSet (dictSet (dictSet default_layer_template
      "name" (JValue.str name)) "domain" (JValue.str domain))
      "description" (JValue.str description))
      "techniques" (JValue.arr (techniques.map techniqueToJ))
  dictSet t "filters"
    (JValue.obj (dictSet
      (match dictLookup t "filters" with
       | some (JValue.obj fs) => fs
       | _ => []) "platforms"
      (JValue.arr (platforms.map JValue.str))))

/-! Helper lemmas -/

lemma resolve_platform_filter_eq {pin pout : Option (List String)}
    {l : List String}
    (hl : (pin = some l ∧ pout = none) ∨ (pin = none ∧ pout = some l)) :
    resolve_platform_filter pin pout = some l := by
  rcases hl with ⟨h1, h2⟩ | ⟨h1, h2⟩ <;> subst h1 <;> subst h2 <;> rfl

lemma validate_eq_find (d : String) (hd : d ∈ attack_domains)
    (pin pout : Option (List String)) (l : List String)
    (hl : (pin = some l ∧ pout = none) ∨ (pin = none ∧ pout = some l)) :
    validate_platform_filters_to_domain d pin pout =
      (l.find? (fun p => decide (p ∉ valid_platform_set d))).map
        (invalid_message d) := by
  have hres := resolve_platform_filter_eq hl
  unfold validate_platform_filters_to_domain
  rw [hres]
  fin_cases hd <;> rfl

lemma find?_first {p : String → Bool} {l : List String} (i : Nat) (x : String)
    (hx : l.get? i = some x) (hpx : p x = true)
    (hbefore : ∀ j y, j < i → l.get? j = some y → p y = false) :
    l.find? p = some x := by
  induction l generalizing i with
  | nil => exact absurd hx (by simp)
  | cons a rest ih =>
    cases i with
    | zero =>
      have hax : a = x := by simpa using hx
      subst hax
      exact List.find?_cons_of_pos rest hpx
    | succ k =>
      have ha : p a = false := hbefore 0 a (Nat.succ_pos k) rfl
      have hrest := ih k (by simpa using hx)
        (fun j y hj hy => hbefore (j + 1) y (Nat.succ_lt_succ hj) (by simpa using hy))
      rw [List.find?_cons_of_neg rest (by simp [ha])]
      exact hrest

/-! Claims about the platform filter -/

/-- C2: for each of the three domains, `create_platform_filter` returns
`set(includeList)` when an include list is given, the valid set of the domain
minus `set(excludeList)` when only an exclude list is given, and the full
valid set of the domain when neither is given (include and exclude being mutually exclusive,
as enforced by the CLI argument group). -/
theorem create_platform_filter_spec (d : String) (hd : d ∈ attack_domains)
    (pin pout : Option (List String)) (hmx : pin = none ∨ pout = none) :
    create_platform_filter d pin pout =
      match pin, pout with
      | some l, _ => l.toFinset
      | none, some l => valid_platform_set d \ l.toFinset
      | none, none => valid_platform_set d := by
  rcases pin with _ | lin
  · rcases pout with _ | lout
    · fin_cases hd <;> rfl
    · fin_cases hd <;> rfl
  · rcases pout with _ | lout
    · fin_cases hd <;> rfl
    · rcases hmx with h | h <;> exact Option.noConfusion h

theorem create_platform_filter_spec_witness :
    create_platform_filter "enterprise-attack" none none =
      valid_platform_set "enterprise-attack" :=
  create_platform_filter_spec "enterprise-attack" (by decide) none none
    (Or.inl rfl)

/-- C7: for each domain, the filter computed from an include list covering a
subset of the valid set equals the filter computed from the complementary
exclude list. -/
theorem create_platform_filter_complement (d : String)
    (hd : d ∈ attack_domains) (lin lout : List String)
    (hsub : lin.toFinset ⊆ valid_platform_set d)
    (hcomp : lout.toFinset = valid_platform_set d \ lin.toFinset) :
    create_platform_filter d (some lin) none =
      create_platform_filter d none (some lout) := by
  have h1 : create_platform_filter d (some lin) none = lin.toFinset := by
    fin_cases hd <;> rfl
  have h2 : create_platform_filter d none (some lout) =
      valid_platform_set d \ lout.toFinset := by
    fin_cases hd <;> rfl
  rw [h1, h2, hcomp, Finset.sdiff_sdiff_self_left,
    Finset.inter_eq_right.mpr hsub]

theorem create_platform_filter_complement_witness :
    create_platform_filter "mobile-attack" (some ["Android"]) none =
      create_platform_filter "mobile-attack" none (some ["iOS"]) :=
  create_platform_filter_complement "mobile-attack" (by decide)
    ["Android"] ["iOS"] (by decide) (by decide)

/-- C4: with a non-null include or exclude list, validation fails exactly when
some entry of that list is outside the valid platform set of the selected
domain,
and on failure the message names the first invalid entry (and the domain). -/
theorem validate_platform_filter_fails_iff (d : String)
    (hd : d ∈ attack_domains) (pin pout : Option (List String))
    (l : List String)
    (hl : (pin = some l ∧ pout = none) ∨ (pin = none ∧ pout = some l)) :
    ((validate_platform_filters_to_domain d pin pout).isSome ↔
      ∃ p ∈ l, p ∉ valid_platform_set d) ∧
    (∀ i x, l.get? i = some x → x ∉ valid_platform_set d →
      (∀ j y, j < i → l.get? j = some y → y ∈ valid_platform_set d) →
      validate_platform_filters_to_domain d pin pout =
        some (invalid_message d x)) := by
  have heq := validate_eq_find d hd pin pout l hl
  constructor
  · rw [heq]
    simp [List.find?_isSome]
  · intro i x hx hinv hbef
    rw [heq, find?_first i x hx (by simpa using hinv)
      (fun j y hj hy => by simpa using hbef j y hj hy)]
    rfl

theorem validate_platform_filter_fails_iff_witness :
    (validate_platform_filters_to_domain "enterprise-attack"
        (some ["Windows", "iOS"]) none).isSome = true ∧
    validate_platform_filters_to_domain "enterprise-attack"
        (some ["Windows", "iOS"]) none =
      some "iOS is not a valid ATT&CK platform for the Enterprise domain" := by
  have h := validate_platform_filter_fails_iff "enterprise-attack" (by decide)
    (some ["Windows", "iOS"]) none ["Windows", "iOS"] (Or.inl ⟨rfl, rfl⟩)
  refine ⟨?_, ?_⟩
  · exact (h.1.mpr ⟨"iOS", by decide, by decide⟩)
  · have h2 := h.2 1 "iOS" rfl (by decide)
      (fun j y hj hy => by
        have hj0 : j = 0 := Nat.lt_one_iff.mp hj
        subst hj0
        have hy0 : y = "Windows" := by simpa using hy.symm
        subst hy0
        decide)
    exact h2

/-- C5 counterexample: on a validation failure (an invalid platform for the
domain) the program skips the operation but falls off the end of `main`, so
the exit status is 0, not nonzero as the claim states. -/
theorem main_validation_failure_exit_zero_counterexample :
    (validate_platform_filters_to_domain "enterprise-attack"
        (some ["iOS"]) none).isSome = true ∧
    (main_dispatch "enterprise-attack" (some ["iOS"]) none).ran_operation
        = false ∧
    (main_dispatch "enterprise-attack" (some ["iOS"]) none).exit_code = 0 := by
  decide

/-- C5 amended: whenever platform-filter validation fails, the invocation runs
neither the seed nor the layer operation (so no fetch or write happens), but
the process exit status is 0. -/
theorem main_validation_failure_aborts (d : String)
    (pin pout : Option (List String))
    (h : (validate_platform_filters_to_domain d pin pout).isSome = true) :
    (main_dispatch d pin pout).ran_operation = false ∧
    (main_dispatch d pin pout).exit_code = 0 := by
  have hn : (validate_platform_filters_to_domain d pin pout).isNone = false := by
    rcases Option.isSome_iff_exists.mp h with ⟨m, hm⟩
    simp [hm]
  unfold main_dispatch
  simp only [hn]
  exact ⟨rfl, rfl⟩

theorem main_validation_failure_aborts_witness :
    (main_dispatch "mobile-attack" (some ["Windows"]) none).ran_operation
        = false ∧
    (main_dispatch "mobile-attack" (some ["Windows"]) none).exit_code = 0 :=
  main_validation_failure_aborts "mobile-attack" (some ["Windows"]) none
    (by decide)

/-! Claims about the seed operation -/

lemma seed_keep_iff (s : Bool) (pf : Finset String) (t : Technique) :
    seed_keep s pf t = true ↔
      (t.revoked ≠ some true ∧ (t.x_mitre_is_subtechnique = true → s = true) ∧
        ∃ p ∈ t.platform, p ∈ pf) := by
  unfold seed_keep
  split_ifs with h1 h2 h3
  · simp [h1]
  · simp only [Bool.and_eq_true, Bool.not_eq_true'] at h2
    rcases h2 with ⟨hx, hs⟩
    simp [hx, hs]
  · constructor
    · intro h
      exact absurd h (by simp)
    · rintro ⟨-, -, p, hp, hppf⟩
      have hmem : p ∈ pf ∩ t.platform.toFinset :=
        Finset.mem_inter.mpr ⟨hppf, List.mem_toFinset.mpr hp⟩
      rw [h3] at hmem
      exact absurd hmem (Finset.not_mem_empty p)
  · constructor
    · intro _
      refine ⟨h1, ?_, ?_⟩
      · intro hx
        by_contra hs
        have hs0 : s = false := by
          cases s
          · rfl
          · exact absurd rfl hs
        exact h2 (by simp [hx, hs0])
      · rcases Finset.nonempty_iff_ne_empty.mpr h3 with ⟨p, hp⟩
        rcases Finset.mem_inter.mp hp with ⟨hpf, hpl⟩
        exact ⟨p, List.mem_toFinset.mp hpl, hpf⟩
    · intro _
      rfl

/-- C1: a fetched technique gets a row in the `techniques` sheet exactly when
it is not revoked, is not a subtechnique while subtechniques are disabled, and
shares a platform with the active filter; every other technique is skipped
(logged, not written), and the kept rows appear in source order (the kept list
is a sublist of the fetched list). -/
theorem seed_emits_iff (s : Bool) (pf : Finset String) (ts : List Technique) :
    List.Sublist (seed_kept s pf ts) ts ∧
    (∀ t ∈ ts, (t ∈ seed_kept s pf ts ↔
      (t.revoked ≠ some true ∧ (t.x_mitre_is_subtechnique = true → s = true) ∧
        ∃ p ∈ t.platform, p ∈ pf))) ∧
    (∀ t ∈ ts, t ∉ seed_kept s pf ts → t ∈ seed_skipped s pf ts) := by
  refine ⟨List.filter_sublist ts, ?_, ?_⟩
  · intro t ht
    rw [seed_kept, List.mem_filter, ← seed_keep_iff]
    simp [ht]
  · intro t ht hnot
    rw [seed_kept, List.mem_filter] at hnot
    rw [seed_skipped, List.mem_filter]
    push_neg at hnot
    have hfalse : seed_keep s pf t = false := by
      cases hkeep : seed_keep s pf t
      · rfl
      · exact absurd hkeep (hnot ht)
    exact ⟨ht, by simp [hfalse]⟩

/-- A concrete non-revoked, non-subtechnique record listing only Windows. -/
def techWindows : Technique :=
  ⟨"T1000", "Concrete Technique", false, ["Windows"], none, none, none⟩

theorem seed_emits_iff_witness :
    techWindows ∈ seed_kept true {"Windows"} [techWindows] := by
  have h := seed_emits_iff true {"Windows"} [techWindows]
  exact (h.2.1 techWindows (by decide)).mpr (by decide)

/-- C9: a technique record with no `revoked` key at all is treated as not
revoked: the seed loop still emits it whenever the subtechnique and platform
checks pass. -/
theorem seed_missing_revoked_kept (s : Bool) (pf : Finset String)
    (ts : List Technique) (t : Technique)
    (hrev : t.revoked = none)
    (hsub : t.x_mitre_is_subtechnique = true → s = true)
    (hplat : ∃ p ∈ t.platform, p ∈ pf)
    (hmem : t ∈ ts) :
    t ∈ seed_kept s pf ts := by
  rw [seed_kept, List.mem_filter]
  exact ⟨hmem, (seed_keep_iff s pf t).mpr ⟨by simp [hrev], hsub, hplat⟩⟩

theorem seed_missing_revoked_kept_witness :
    techWindows ∈ seed_kept false {"Windows"} [techWindows] :=
  seed_missing_revoked_kept false {"Windows"} [techWindows] techWindows rfl
    (by decide) (by decide) (by decide)

lemma seed_foldl_count (s : Bool) (pf : Finset String) (ts : List Technique)
    (n : Nat) :
    ts.foldl (fun r t => if seed_keep s pf t then r + 1 else r) n =
      n + (ts.filter (seed_keep s pf)).length := by
  induction ts generalizing n with
  | nil => simp
  | cons a rest ih =>
    rw [List.foldl_cons, List.filter_cons]
    by_cases h : seed_keep s pf a = true
    · rw [if_pos h, if_pos h, ih]
      simp only [List.length_cons]
      omega
    · rw [if_neg h, if_neg h, ih]

/-- C6 divergence: the count printed at line 199 is `sheet1_row - 1`, which is
one more than the number of technique rows actually written after filtering
(the header sits in row 1 and `sheet1_row` already points past the last
written row, so the correct expression would be `sheet1_row - 2`). -/
theorem seed_reported_count_off_by_one (s : Bool) (pf : Finset String)
    (ts : List Technique) :
    seed_reported_count s pf ts = (seed_kept s pf ts).length + 1 := by
  unfold seed_reported_count seed_final_sheet1_row seed_kept
  rw [seed_foldl_count]
  omega

/-! Dict lemmas (Python dict semantics over association lists) -/

lemma keys_update {α : Type} (m : List (String × α)) (k : String) (v : α) :
    (m.map (fun kv => if kv.1 = k then (k, v) else kv)).map Prod.fst =
      m.map Prod.fst := by
  rw [List.map_map]
  apply List.map_congr_left
  intro kv _
  by_cases h : kv.1 = k
  · simp [h]
  · simp [h]

lemma dictLookup_dictSet_self {α : Type} (m : List (String × α)) (k : String)
    (v : α) :
    dictLookup (dictSet m k v) k = some v := by
  unfold dictSet dictLookup
  by_cases h : (m.map Prod.fst).contains k
  · rw [if_pos h]
    have hk : k ∈ m.map Prod.fst := by simpa using h
    clear h
    induction m with
    | nil => simp at hk
    | cons a rest ih =>
      by_cases hak : a.1 = k
      · simp [hak]
      · have h2 : k ∈ rest.map Prod.fst := by
          rcases List.mem_cons.mp hk with he | hm
          · exact absurd he.symm hak
          · exact hm
        simp only [List.map_cons, if_neg hak]
        rw [List.find?_cons_of_neg _ (by simp [hak])]
        exact ih h2
  · rw [if_neg h]
    have hk : k ∉ m.map Prod.fst := by simpa using h
    clear h
    induction m with
    | nil => simp [List.find?]
    | cons a rest ih =>
      have hak : ¬ a.1 = k := fun he => hk (by simp [he])
      have h2 : k ∉ rest.map Prod.fst := fun hm => hk (by simp [hm])
      simp only [List.cons_append]
      rw [List.find?_cons_of_neg _ (by simp [hak])]
      exact ih h2

lemma dictLookup_dictSet_ne {α : Type} (m : List (String × α)) (k a : String)
    (v : α) (hne : a ≠ k) :
    dictLookup (dictSet m k v) a = dictLookup m a := by
  have hka : ¬ k = a := fun he => hne he.symm
  unfold dictSet dictLookup
  by_cases h : (m.map Prod.fst).contains k
  · rw [if_pos h]
    clear h
    induction m with
    | nil => rfl
    | cons b rest ih =>
      by_cases hbk : b.1 = k
      · simp only [List.map_cons, if_pos hbk]
        rw [List.find?_cons_of_neg _ (by simp [hka]),
          List.find?_cons_of_neg _ (by simp [hbk, hka])]
        exact ih
      · simp only [List.map_cons, if_neg hbk]
        by_cases hba : b.1 = a
        · rw [List.find?_cons_of_pos _ (by simp [hba]),
            List.find?_cons_of_pos _ (by simp [hba])]
        · rw [List.find?_cons_of_neg _ (by simp [hba]),
            List.find?_cons_of_neg _ (by simp [hba])]
          exact ih
  · rw [if_neg h]
    rw [List.find?_append]
    have hlast : List.find? (fun kv => kv.1 == a) [(k, v)] = none := by
      simp [hka]
    rw [hlast]
    cases List.find? (fun kv => kv.1 == a) m <;> rfl

lemma mem_keys_dictSet {α : Type} (m : List (String × α)) (k a : String)
    (v : α) :
    a ∈ (dictSet m k v).map Prod.fst ↔ a ∈ m.map Prod.fst ∨ a = k := by
  unfold dictSet
  by_cases h : (m.map Prod.fst).contains k
  · rw [if_pos h, keys_update]
    have hk : k ∈ m.map Prod.fst := by simpa using h
    constructor
    · exact Or.inl
    · rintro (hm | he)
      · exact hm
      · exact he ▸ hk
  · rw [if_neg h, List.map_append]
    simp

lemma nodup_keys_dictSet {α : Type} (m : List (String × α)) (k : String)
    (v : α) (h : (m.map Prod.fst).Nodup) :
    ((dictSet m k v).map Prod.fst).Nodup := by
  unfold dictSet
  by_cases hc : (m.map Prod.fst).contains k
  · rw [if_pos hc, keys_update]
    exact h
  · rw [if_neg hc, List.map_append]
    have hk : k ∉ m.map Prod.fst := by simpa using hc
    rw [List.nodup_append]
    refine ⟨h, List.nodup_singleton k, ?_⟩
    intro a ha hb
    have hak : a = k := by simpa using hb
    exact hk (hak ▸ ha)

lemma eq_of_mem_of_nodup_keys {α : Type} {m : List (String × α)}
    (hm : (m.map Prod.fst).Nodup) {k : String} {v1 v2 : α}
    (h1 : (k, v1) ∈ m) (h2 : (k, v2) ∈ m) : v1 = v2 := by
  induction m with
  | nil => simp at h1
  | cons a rest ih =>
    have hnd : (rest.map Prod.fst).Nodup := (List.nodup_cons.mp hm).2
    have hhd : a.1 ∉ rest.map Prod.fst := by
      have := (List.nodup_cons.mp hm).1
      simpa using this
    rcases List.mem_cons.mp h1 with e1 | m1 <;> rcases List.mem_cons.mp h2 with e2 | m2
    · rw [← e1] at e2
      exact (Prod.mk.injEq _ _ _ _ ▸ e2).2.symm
    · exfalso
      apply hhd
      rw [← e1]
      exact List.mem_map.mpr ⟨(k, v2), m2, rfl⟩
    · exfalso
      apply hhd
      rw [← e2]
      exact List.mem_map.mpr ⟨(k, v1), m1, rfl⟩
    · exact ih hnd m1 m2

/-! Column-map lemmas -/

lemma mem_keys_build_from (cells : List PyValue) (c0 : Nat)
    (acc : List (String × Nat)) (h : String) :
    h ∈ (build_column_map_from cells c0 acc).map Prod.fst ↔
      h ∈ acc.map Prod.fst ∨
        (h ∈ recognized_headers ∧ PyValue.str h ∈ cells) := by
  induction cells generalizing c0 acc with
  | nil => simp [build_column_map_from]
  | cons c rest ih =>
    cases c with
    | str s =>
      by_cases hs : s ∈ recognized_headers
      · simp only [build_column_map_from, if_pos hs]
        rw [ih, mem_keys_dictSet]
        simp only [List.mem_cons, PyValue.str.injEq]
        constructor
        · rintro ((hm | he) | ⟨hr, hc⟩)
          · exact Or.inl hm
          · exact Or.inr ⟨he ▸ hs, Or.inl he⟩
          · exact Or.inr ⟨hr, Or.inr hc⟩
        · rintro (hm | ⟨hr, (he | hc)⟩)
          · exact Or.inl (Or.inl hm)
          · exact Or.inl (Or.inr he)
          · exact Or.inr ⟨hr, hc⟩
      · simp only [build_column_map_from, if_neg hs]
        rw [ih]
        simp only [List.mem_cons, PyValue.str.injEq]
        constructor
        · rintro (hm | ⟨hr, hc⟩)
          · exact Or.inl hm
          · exact Or.inr ⟨hr, Or.inr hc⟩
        · rintro (hm | ⟨hr, (he | hc)⟩)
          · exact Or.inl hm
          · exact absurd (he ▸ hr) hs
          · exact Or.inr ⟨hr, hc⟩
    | none =>
      simp only [build_column_map_from]
      rw [ih]
      simp
    | int n =>
      simp only [build_column_map_from]
      rw [ih]
      simp
    | bool b =>
      simp only [build_column_map_from]
      rw [ih]
      simp

lemma build_from_lookup_of_not_mem (cells : List PyValue) (c0 : Nat)
    (acc : List (String × Nat)) (h : String)
    (hno : PyValue.str h ∉ cells) :
    dictLookup (build_column_map_from cells c0 acc) h = dictLookup acc h := by
  induction cells generalizing c0 acc with
  | nil => rfl
  | cons c rest ih =>
    have hcr : PyValue.str h ∉ rest := fun hh => hno (List.mem_cons_of_mem c hh)
    cases c with
    | str s =>
      have hsh : ¬ s = h := fun he => hno (by simp [he])
      by_cases hs : s ∈ recognized_headers
      · simp only [build_column_map_from, if_pos hs]
        rw [ih _ _ hcr]
        exact dictLookup_dictSet_ne acc s h _ (fun he => hsh he.symm)
      · simp only [build_column_map_from, if_neg hs]
        exact ih _ _ hcr
    | none =>
      simp only [build_column_map_from]
      exact ih _ _ hcr
    | int n =>
      simp only [build_column_map_from]
      exact ih _ _ hcr
    | bool b =>
      simp only [build_column_map_from]
      exact ih _ _ hcr

lemma build_from_lookup_last (cells : List PyValue) (c0 : Nat)
    (acc : List (String × Nat)) (h : String)
    (hrec : h ∈ recognized_headers) (i : Nat)
    (hi : cells.get? i = some (PyValue.str h))
    (hlast : ∀ j, i < j → cells.get? j ≠ some (PyValue.str h)) :
    dictLookup (build_column_map_from cells c0 acc) h = some (c0 + i) := by
  induction cells generalizing c0 acc i with
  | nil => simp at hi
  | cons c rest ih =>
    cases i with
    | zero =>
      have hc : c = PyValue.str h := by simpa using hi
      subst hc
      have hnorest : PyValue.str h ∉ rest := by
        intro hmem
        rcases List.get?_of_mem hmem with ⟨j, hj⟩
        exact hlast (j + 1) (Nat.succ_pos j) (by simpa using hj)
      simp only [build_column_map_from, if_pos hrec]
      rw [build_from_lookup_of_not_mem rest _ _ h hnorest,
        dictLookup_dictSet_self]
      rfl
    | succ k =>
      have hik : rest.get? k = some (PyValue.str h) := by simpa using hi
      have hlast2 : ∀ j, k < j → rest.get? j ≠ some (PyValue.str h) := by
        intro j hj hcon
        exact hlast (j + 1) (Nat.succ_lt_succ hj) (by simpa using hcon)
      have hstep : c0 + 1 + k = c0 + (k + 1) := by omega
      cases c with
      | str s =>
        by_cases hs : s ∈ recognized_headers
        · simp only [build_column_map_from, if_pos hs]
          rw [ih _ _ k hik hlast2, hstep]
        · simp only [build_column_map_from, if_neg hs]
          rw [ih _ _ k hik hlast2, hstep]
      | none =>
        simp only [build_column_map_from]
        rw [ih _ _ k hik hlast2, hstep]
      | int n =>
        simp only [build_column_map_from]
        rw [ih _ _ k hik hlast2, hstep]
      | bool b =>
        simp only [build_column_map_from]
        rw [ih _ _ k hik hlast2, hstep]

lemma nodup_keys_build_from (cells : List PyValue) (c0 : Nat)
    (acc : List (String × Nat)) (h : (acc.map Prod.fst).Nodup) :
    ((build_column_map_from cells c0 acc).map Prod.fst).Nodup := by
  induction cells generalizing c0 acc with
  | nil => exact h
  | cons c rest ih =>
    cases c with
    | str s =>
      by_cases hs : s ∈ recognized_headers
      · simp only [build_column_map_from, if_pos hs]
        exact ih _ _ (nodup_keys_dictSet acc s c0 h)
      · simp only [build_column_map_from, if_neg hs]
        exact ih _ _ h
    | none =>
      simp only [build_column_map_from]
      exact ih _ _ h
    | int n =>
      simp only [build_column_map_from]
      exact ih _ _ h
    | bool b =>
      simp only [build_column_map_from]
      exact ih _ _ h

lemma mem_of_dictLookup_eq_some {α : Type} {m : List (String × α)}
    {k : String} {v : α} (h : dictLookup m k = some v) : (k, v) ∈ m := by
  unfold dictLookup at h
  cases hf : m.find? (fun kv => kv.1 == k) with
  | none => rw [hf] at h; exact absurd h (by simp)
  | some kv =>
    rw [hf] at h
    have hkv : kv.1 = k := by
      have := List.find?_some hf
      simpa using this
    have hmem := List.mem_of_find?_eq_some hf
    have hv : kv.2 = v := by simpa using h
    have : kv = (k, v) := Prod.ext hkv hv
    exact this ▸ hmem

/-! Claims about the layer operation -/

/-- C3: for a worksheet with N data rows the techniques list has exactly N
entries in worksheet row order; the keys of each entry are exactly the recognized
header names present in the header row (other headers being ignored); and a
missing/empty cell yields the key bound to a null value rather than omitted. -/
theorem layer_techniques_spec (headers : List PyValue)
    (rows : List (List PyValue)) :
    (layer_techniques headers rows).length = rows.length ∧
    (∀ i, (layer_techniques headers rows).get? i =
      (rows.get? i).map (build_technique (build_column_map headers))) ∧
    (∀ t ∈ layer_techniques headers rows, ∀ h : String,
      (∃ v, (h, v) ∈ t) ↔
        (h ∈ recognized_headers ∧ PyValue.str h ∈ headers)) ∧
    (∀ r : List PyValue, ∀ h : String, ∀ c : Nat,
      (h, c) ∈ build_column_map headers →
      (r.get? c).getD PyValue.none = PyValue.none →
      (h, PyValue.none) ∈ build_technique (build_column_map headers) r) := by
  refine ⟨by simp [layer_techniques], fun i => by simp [layer_techniques], ?_, ?_⟩
  · intro t ht h
    rcases List.mem_map.mp ht with ⟨r, hr, hrt⟩
    subst hrt
    constructor
    · rintro ⟨v, hv⟩
      rcases List.mem_map.mp hv with ⟨kv, hkv, hkveq⟩
      have hkeys : h ∈ (build_column_map headers).map Prod.fst :=
        List.mem_map.mpr ⟨kv, hkv, congrArg Prod.fst hkveq⟩
      have hchar := (mem_keys_build_from headers 0 [] h).mp hkeys
      simpa using hchar
    · rintro ⟨hr2, hc2⟩
      have hkeys : h ∈ (build_column_map headers).map Prod.fst :=
        (mem_keys_build_from headers 0 [] h).mpr (Or.inr ⟨hr2, hc2⟩)
      rcases List.mem_map.mp hkeys with ⟨kv, hkv, hkv1⟩
      exact ⟨row_get r kv.2, List.mem_map.mpr ⟨kv, hkv, by simp [hkv1]⟩⟩
  · intro r h c hmem hcell
    have hrg : row_get r c = PyValue.none := hcell
    have hin : (h, row_get r c) ∈ build_technique (build_column_map headers) r :=
      List.mem_map.mpr ⟨(h, c), hmem, rfl⟩
    rw [hrg] at hin
    exact hin

/-- A concrete header row: two recognized headers and one unrecognized. -/
def headersEx : List PyValue :=
  [PyValue.str "techniqueID", PyValue.str "bogus", PyValue.str "score"]

/-- Two concrete data rows, the second entirely empty. -/
def rowsEx : List (List PyValue) :=
  [[PyValue.str "T1", PyValue.int 5], []]

theorem layer_techniques_spec_witness :
    (layer_techniques headersEx rowsEx).length = 2 ∧
    (∃ v, ("score", v) ∈ build_technique (build_column_map headersEx) []) := by
  have h := layer_techniques_spec headersEx rowsEx
  refine ⟨h.1, ?_⟩
  have hmem : build_technique (build_column_map headersEx) [] ∈
      layer_techniques headersEx rowsEx := by decide
  exact (h.2.2.1 _ hmem "score").mpr ⟨by decide, by decide⟩

/-- C10: when a recognized header name occupies several columns, the column
map binds it to the rightmost such column, every emitted entry takes that
value of that key from that column, and no entry carries a value from the earlier
duplicate columns. -/
theorem layer_duplicate_header_rightmost (headers : List PyValue) (h : String)
    (hrec : h ∈ recognized_headers) (i : Nat)
    (hi : headers.get? i = some (PyValue.str h))
    (hlast : ∀ j, i < j → headers.get? j ≠ some (PyValue.str h)) :
    dictLookup (build_column_map headers) h = some i ∧
    ∀ r : List PyValue,
      (h, row_get r i) ∈ build_technique (build_column_map headers) r ∧
      ∀ v, (h, v) ∈ build_technique (build_column_map headers) r →
        v = row_get r i := by
  have hlook : dictLookup (build_column_map headers) h = some i := by
    have hfrom := build_from_lookup_last headers 0 [] h hrec i hi hlast
    simpa using hfrom
  have hmem : (h, i) ∈ build_column_map headers := mem_of_dictLookup_eq_some hlook
  have hnd : ((build_column_map headers).map Prod.fst).Nodup :=
    nodup_keys_build_from headers 0 [] (by simp)
  refine ⟨hlook, fun r => ⟨List.mem_map.mpr ⟨(h, i), hmem, rfl⟩, ?_⟩⟩
  intro v hv
  rcases List.mem_map.mp hv with ⟨kv, hkv, hkveq⟩
  have hk1 : kv.1 = h := congrArg Prod.fst hkveq
  have hv2 : v = row_get r kv.2 := (congrArg Prod.snd hkveq).symm
  have hc : kv.2 = i := by
    have hkvmem : (h, kv.2) ∈ build_column_map headers := by
      rw [← hk1]
      exact hkv
    exact eq_of_mem_of_nodup_keys hnd hkvmem hmem
  rw [hv2, hc]

theorem layer_duplicate_header_rightmost_witness :
    dictLookup (build_column_map
        [PyValue.str "techniqueID", PyValue.str "techniqueID"])
        "techniqueID" = some 1 ∧
    ("techniqueID", PyValue.str "B") ∈ build_technique
        (build_column_map [PyValue.str "techniqueID", PyValue.str "techniqueID"])
        [PyValue.str "A", PyValue.str "B"] := by
  have hlast : ∀ j, 1 < j →
      ([PyValue.str "techniqueID", PyValue.str "techniqueID"]).get? j ≠
        some (PyValue.str "techniqueID") := by
    intro j hj hcon
    have hlen : ([PyValue.str "techniqueID", PyValue.str "techniqueID"]).get? j
        = none := by
      apply List.get?_eq_none.mpr
      simpa using hj
    rw [hlen] at hcon
    exact Option.noConfusion hcon
  have h := layer_duplicate_header_rightmost
    [PyValue.str "techniqueID", PyValue.str "techniqueID"] "techniqueID"
    (by decide) 1 rfl hlast
  exact ⟨h.1, (h.2 [PyValue.str "A", PyValue.str "B"]).1⟩

set_option maxHeartbeats 4000000 in
/-- C8: the produced layer document is the fixed template with exactly
`name`, `domain`, `description`, `techniques` and `filters.platforms`
overwritten from the inputs; every other field keeps its template value, the
boolean-like fields remaining the literal strings "true"/"false". -/
theorem layer_document_spec (name domain description : String)
    (techniques : List (List (String × PyValue))) (platforms : List String) :
    dictLookup (layer_document name domain description techniques platforms)
        "name" = some (JValue.str name) ∧
    dictLookup (layer_document name domain description techniques platforms)
        "domain" = some (JValue.str domain) ∧
    dictLookup (layer_document name domain description techniques platforms)
        "description" = some (JValue.str description) ∧
    dictLookup (layer_document name domain description techniques platforms)
        "techniques" = some (JValue.arr (techniques.map techniqueToJ)) ∧
    dictLookup (layer_document name domain description techniques platforms)
        "filters" = some (JValue.obj
          [("platforms", JValue.arr (platforms.map JValue.str))]) ∧
    (layer_document name domain description techniques platforms).map Prod.fst
        = default_layer_template.map Prod.fst ++ ["name", "techniques"] ∧
    dictLookup (layer_document name domain description techniques platforms)
        "versions" = some (JValue.obj
          [("attack", JValue.str "9"), ("navigator", JValue.str "4.3"),
           ("layer", JValue.str "4.2")]) ∧
    dictLookup (layer_document name domain description techniques platforms)
        "sorting" = some (JValue.int 0) ∧
    dictLookup (layer_document name domain description techniques platforms)
        "layout" = some (JValue.obj
          [("layout", JValue.str "side"), ("showID", JValue.str "false"),
           ("showName", JValue.str "true")]) ∧
    dictLookup (layer_document name domain description techniques platforms)
        "hideDisabled" = some (JValue.str "false") ∧
    dictLookup (layer_document name domain description techniques platforms)
        "gradient" = some (JValue.obj
          [("colors", JValue.arr
              [JValue.str "#ff6666", JValue.str "#ffe766",
               JValue.str "#8ec843"]),
           ("minValue", JValue.int 0), ("maxValue", JValue.int 100)]) ∧
    dictLookup (layer_document name domain description techniques platforms)
        "legendItems" = some (JValue.arr []) ∧
    dictLookup (layer_document name domain description techniques platforms)
        "metadata" = some (JValue.arr []) ∧
    dictLookup (layer_document name domain description techniques platforms)
        "showTacticRowBackground" = some (JValue.str "false") ∧
    dictLookup (layer_document name domain description techniques platforms)
        "tacticRowBackground" = some (JValue.str "#dddddd") ∧
    dictLookup (layer_document name domain description techniques platforms)
        "selectTechniquesAcrossTactics" = some (JValue.str "true") ∧
    dictLookup (layer_document name domain description techniques platforms)
        "selectSubtechniquesWithParent" = some (JValue.str "false") := by
  have hf4 : dictLookup (dictSet (dictSet (dictSet (dictSet
      default_layer_template "name" (JValue.str name))
      "domain" (JValue.str domain)) "description" (JValue.str description))
      "techniques" (JValue.arr (techniques.map techniqueToJ))) "filters"
      = some (JValue.obj [("platforms", JValue.arr [])]) := by
    rw [dictLookup_dictSet_ne _ _ _ _ (by decide),
      dictLookup_dictSet_ne _ _ _ _ (by decide),
      dictLookup_dictSet_ne _ _ _ _ (by decide),
      dictLookup_dictSet_ne _ _ _ _ (by decide)]
    rfl
  have hdoc : layer_document name domain description techniques platforms =
      dictSet (dictSet (dictSet (dictSet (dictSet default_layer_template
        "name" (JValue.str name)) "domain" (JValue.str domain))
        "description" (JValue.str description))
        "techniques" (JValue.arr (techniques.map techniqueToJ)))
        "filters" (JValue.obj [("platforms",
          JValue.arr (platforms.map JValue.str))]) := by
    simp only [layer_document]
    rw [hf4]
    congr 1
  have hother : ∀ k : String, ¬ k = "name" → ¬ k = "domain" →
      ¬ k = "description" → ¬ k = "techniques" → ¬ k = "filters" →
      dictLookup (layer_document name domain description techniques platforms) k
        = dictLookup default_layer_template k := by
    intro k h1 h2 h3 h4 h5
    rw [hdoc, dictLookup_dictSet_ne _ _ _ _ h5,
      dictLookup_dictSet_ne _ _ _ _ h4, dictLookup_dictSet_ne _ _ _ _ h3,
      dictLookup_dictSet_ne _ _ _ _ h2, dictLookup_dictSet_ne _ _ _ _ h1]
  refine ⟨?_, ?_, ?_, ?_, ?_, ?_, ?_, ?_, ?_, ?_, ?_, ?_, ?_, ?_, ?_, ?_, ?_⟩
  · rw [hdoc, dictLookup_dictSet_ne _ _ _ _ (by decide),
      dictLookup_dictSet_ne _ _ _ _ (by decide),
      dictLookup_dictSet_ne _ _ _ _ (by decide),
      dictLookup_dictSet_ne _ _ _ _ (by decide), dictLookup_dictSet_self]
  · rw [hdoc, dictLookup_dictSet_ne _ _ _ _ (by decide),
      dictLookup_dictSet_ne _ _ _ _ (by decide),
      dictLookup_dictSet_ne _ _ _ _ (by decide), dictLookup_dictSet_self]
  · rw [hdoc, dictLookup_dictSet_ne _ _ _ _ (by decide),
      dictLookup_dictSet_ne _ _ _ _ (by decide), dictLookup_dictSet_self]
  · rw [hdoc, dictLookup_dictSet_ne _ _ _ _ (by decide),
      dictLookup_dictSet_self]
  · rw [hdoc, dictLookup_dictSet_self]
  · rw [hdoc]
    rfl
  · rw [hother "versions" (by decide) (by decide) (by decide) (by decide)
      (by decide)]
    rfl
  · rw [hother "sorting" (by decide) (by decide) (by decide) (by decide)
      (by decide)]
    rfl
  · rw [hother "layout" (by decide) (by decide) (by decide) (by decide)
      (by decide)]
    rfl
  · rw [hother "hideDisabled" (by decide) (by decide) (by decide) (by decide)
      (by decide)]
    rfl
  · rw [hother "gradient" (by decide) (by decide) (by decide) (by decide)
      (by decide)]
    rfl
  · rw [hother "legendItems" (by decide) (by decide) (by decide) (by decide)
      (by decide)]
    rfl
  · rw [hother "metadata" (by decide) (by decide) (by decide) (by decide)
      (by decide)]
    rfl
  · rw [hother "showTacticRowBackground" (by decide) (by decide) (by decide)
      (by decide) (by decide)]
    rfl
  · rw [hother "tacticRowBackground" (by decide) (by decide) (by decide)
      (by decide) (by decide)]
    rfl
  · rw [hother "selectTechniquesAcrossTactics" (by decide) (by decide)
      (by decide) (by decide) (by decide)]
    rfl
  · rw [hother "selectSubtechniquesWithParent" (by decide) (by decide)
      (by decide) (by decide) (by decide)]
    rfl

end AttackExcel
